import Mathlib

/-!
Shallow embedding of the live-transcription incremental-rendering pipeline of
`src/demos/browser/app/meetingV2/meetingV2.ts` (the `transcriptEventHandler`,
`renderPartialTranscriptResults`, `updatePartialTranscriptDiv`,
`populatePartialTranscriptSegmentsFromResult`, `createSpaceSpan` and
`appendNewSpeakerTranscriptDiv` members, plus the fields
`noWordSeparatorForTranscription`, `transcriptEntitySet`,
`partialTranscriptResultMap`, `partialTranscriptResultTimeMap`,
`partialTranscriptDiv`, `enableLiveTranscription` and the constant
`LANGUAGES_NO_WORD_SEPARATOR`).

Modelling conventions:
* JavaScript `Map` objects are insertion-ordered association lists
  (`List (String × β)`); `set` overwrites in place, `delete` filters,
  iteration is list order — matching ECMAScript `Map` semantics.
* JavaScript `Set<string>` objects are duplicate-free `List String` in
  insertion order.
* DOM spans are flattened to lists of rendered tokens (`RenderedToken`);
  a token records its text and the two CSS highlight classes the code can
  attach (`confidence-style`, `entity-color`).  A speaker `div` is its label
  plus the flattened token list of the transcript span it holds.
* Times are `Int` (the demo passes integer millisecond values), confidence
  is `Rat` (exact version of the float comparison against `0.3`).
* A thrown `TypeError` (reading a property of `undefined` when
  `alternatives[0]` is absent) is modelled by a `false` completion flag;
  the state at the throw point is kept, exactly as the mutated class fields
  survive an exception escaping the handler.
-/

namespace Chime

/-- Speaker identity carried on each transcript item (`attendee` field of the
SDK item: `attendeeId` plus `externalUserId`). -/
structure Attendee where
  attendeeId : String
  externalUserId : String
deriving DecidableEq, Repr

/-- Item kind; the code only tests `item.type === TranscriptItemType.PUNCTUATION`,
the other SDK value being `PRONUNCIATION`. -/
inductive TranscriptItemType where
  | pronunciation
  | punctuation
deriving DecidableEq, Repr

/-- One item of the best alternative.  `confidence = none` models the absence
of the attribute (`hasOwnProperty('confidence')` is false). -/
structure TranscriptItem where
  content : String
  type : TranscriptItemType
  startTimeMs : Int
  endTimeMs : Int
  attendee : Attendee
  confidence : Option Rat
deriving DecidableEq, Repr

/-- One PII/PHI entity of a finalized result (`content` may hold several
space-separated tokens). -/
structure TranscriptEntity where
  content : String
deriving DecidableEq, Repr

/-- One alternative; `entities = none` models the attribute being absent
(the code reads it through optional chaining `entities?.length`). -/
structure TranscriptAlternative where
  items : List TranscriptItem
  entities : Option (List TranscriptEntity)
deriving DecidableEq, Repr

/-- A transcript result as received from the SDK.  `alternatives` is a list;
the code only dereferences `alternatives[0]`, which throws when the list is
empty. -/
structure TranscriptResult where
  resultId : String
  isPartial : Bool
  languageCode : Option String
  alternatives : List TranscriptAlternative
  endTimeMs : Int
deriving DecidableEq, Repr

/-- `const LANGUAGES_NO_WORD_SEPARATOR = new Set(['ja-JP', 'zh-CN']);` -/
def LANGUAGES_NO_WORD_SEPARATOR : List String := ["ja-JP", "zh-CN"]

/-- ECMAScript `Map.prototype.get`: value of the first (unique) entry whose
key equals `k`. -/
def jsMapGet {β : Type} : List (String × β) → String → Option β
  | [], _ => none
  | p :: rest, k => if p.1 = k then some p.2 else jsMapGet rest k

/-- ECMAScript `Map.prototype.has`. -/
def jsMapHas {β : Type} : List (String × β) → String → Bool
  | [], _ => false
  | p :: rest, k => if p.1 = k then true else jsMapHas rest k

/-- ECMAScript `Map.prototype.set`: overwrite in place when the key exists
(insertion order preserved), otherwise append at the end. -/
def jsMapSet {β : Type} (m : List (String × β)) (k : String) (v : β) : List (String × β) :=
  if jsMapHas m k then
    m.map (fun p => if p.1 = k then (k, v) else p)
  else
    m ++ [(k, v)]

/-- ECMAScript `Map.prototype.delete` (keeping only the resulting map). -/
def jsMapDelete {β : Type} : List (String × β) → String → List (String × β)
  | [], _ => []
  | p :: rest, k => if p.1 = k then jsMapDelete rest k else p :: jsMapDelete rest k

/-- ECMAScript `Set.prototype.add` on a duplicate-free insertion-ordered list. -/
def jsSetAdd (s : List String) (x : String) : List String :=
  if s.contains x then s else s ++ [x]

/-- JavaScript truthiness of the `startTimeMs` local of
`populatePartialTranscriptSegmentsFromResult`: it is `null` initially and a
number afterwards; `0` is falsy. -/
def jsTruthy (o : Option Int) : Bool :=
  match o with
  | none => false
  | some v => v != 0

/-- Value of `s.split('#').slice(-1)[0]`: the suffix of `s` after its last
`'#'` character (all of `s` when it has none). -/
def splitHashLast (s : String) : String :=
  ⟨s.data.foldl (fun acc c => if c = '#' then [] else acc ++ [c]) []⟩

/-- Value of `s.split(' ')` (ECMAScript split on the one-character separator,
keeping empty pieces). -/
def splitSpacesAux : List Char → List Char → List String
  | [], acc => [⟨acc.reverse⟩]
  | c :: rest, acc =>
    if c = ' ' then ⟨acc.reverse⟩ :: splitSpacesAux rest []
    else splitSpacesAux rest (c :: acc)

/-- `s.split(' ')`. -/
def jsSplitSpace (s : String) : List String :=
  splitSpacesAux s.data []

/-- Value of `s.startsWith('[')`: whether the first character is `'['`. -/
def startsWithLBracket (s : String) : Bool :=
  match s.data with
  | c :: _ => c = '['
  | [] => false

/-- A rendered token: the `innerText` of one `span` created by the builder,
together with the two optional highlight classes (`confidence-style`,
`entity-color`). -/
structure RenderedToken where
  text : String
  lowConfidence : Bool
  entityHighlight : Bool
deriving DecidableEq, Repr

/-- `createSpaceSpan()`: a span holding a single non-breaking space with no
highlight classes. -/
def spaceToken : RenderedToken :=
  { text := "\u00A0", lowConfidence := false, entityHighlight := false }

/-- The `itemContentSpan` built for one item
(`populatePartialTranscriptSegmentsFromResult`, lines 3919–3937): the item
text, the `confidence-style` class exactly when the item has a `confidence`
attribute, its content does not start with `'['` and the confidence is below
`0.3`, and the `entity-color` class exactly when the entity set is non-empty
and contains the exact token text. -/
def renderTranscriptItem (entitySet : List String) (item : TranscriptItem) : RenderedToken :=
  { text := item.content
    lowConfidence :=
      match item.confidence with
      | some c => !(startsWithLBracket item.content) && decide (c < (3 : Rat) / 10)
      | none => false
    entityHighlight := decide (entitySet.length > 0) && entitySet.contains item.content }

/-- A derived segment (`interface TranscriptSegment`): the accumulated run
span (flattened to tokens), its attendee and its time bounds. -/
structure TranscriptSegment where
  contentSpan : List RenderedToken
  attendee : Attendee
  startTimeMs : Int
  endTimeMs : Int
deriving DecidableEq, Repr

/-- The three mutable locals of the item loop of
`populatePartialTranscriptSegmentsFromResult`: `startTimeMs` (`null` or a
number), `attendee` (`null` or a value), and the growing `contentSpan`. -/
structure SBState where
  startTimeMs : Option Int
  attendee : Option Attendee
  contentSpan : List RenderedToken
deriving DecidableEq, Repr

/-- Initial loop state: `startTimeMs = null`, `attendee = null`, no span yet. -/
def SBState.init : SBState :=
  { startTimeMs := none, attendee := none, contentSpan := [] }

/-- Default used to read the `attendee` local at positions where the source
guarantees it is non-null; never reached from states the loop produces. -/
def defaultAttendee : Attendee :=
  { attendeeId := "", externalUserId := "" }

/-- One iteration of the item loop of
`populatePartialTranscriptSegmentsFromResult` (lines 3918–3962): on a falsy
`startTimeMs` start a fresh run from this item; otherwise a punctuation item
is appended with no separator and closes the run as a segment ending at the
item's `endTimeMs`; otherwise the token is appended, preceded by a
non-breaking-space span unless `noWordSeparatorForTranscription` is set. -/
def sbStep (noSep : Bool) (entitySet : List String)
    (acc : SBState × List TranscriptSegment) (item : TranscriptItem) :
    SBState × List TranscriptSegment :=
  let st := acc.1
  let segments := acc.2
  let tok := renderTranscriptItem entitySet item
  if jsTruthy st.startTimeMs = false then
    ({ startTimeMs := some item.startTimeMs
       attendee := some item.attendee
       contentSpan := [tok] }, segments)
  else if item.type = TranscriptItemType.punctuation then
    ({ startTimeMs := none
       attendee := none
       contentSpan := st.contentSpan ++ [tok] },
     segments ++ [{ contentSpan := st.contentSpan ++ [tok]
                    attendee := st.attendee.getD defaultAttendee
                    startTimeMs := st.startTimeMs.getD 0
                    endTimeMs := item.endTimeMs }])
  else if noSep then
    ({ st with contentSpan := st.contentSpan ++ [tok] }, segments)
  else
    ({ st with contentSpan := st.contentSpan ++ [spaceToken, tok] }, segments)

/-- `populatePartialTranscriptSegmentsFromResult(segments, result)`
(lines 3913–3973): iterate the items of `alternatives[0]` through `sbStep`,
then close a still-open run using the result's own `endTimeMs`.  Reading
`alternatives[0]` of an empty list throws (`error`). -/
def populatePartialTranscriptSegmentsFromResult (noSep : Bool) (entitySet : List String)
    (segments : List TranscriptSegment) (result : TranscriptResult) :
    Except Unit (List TranscriptSegment) :=
  match result.alternatives.head? with
  | none => .error ()
  | some alt =>
    let p := alt.items.foldl (sbStep noSep entitySet) (SBState.init, segments)
    if jsTruthy p.1.startTimeMs then
      .ok (p.2 ++ [{ contentSpan := p.1.contentSpan
                     attendee := p.1.attendee.getD defaultAttendee
                     startTimeMs := p.1.startTimeMs.getD 0
                     endTimeMs := result.endTimeMs }])
    else
      .ok p.2

/-- Insert `x` into an already sorted list, after all elements it does not
strictly precede (the stable insertion step). -/
def insertByStart (x : TranscriptSegment) : List TranscriptSegment → List TranscriptSegment
  | [] => [x]
  | y :: ys =>
    if y.startTimeMs ≤ x.startTimeMs then y :: insertByStart x ys
    else x :: y :: ys

/-- `partialTranscriptSegments.sort((a, b) => a.startTimeMs - b.startTimeMs)`:
the (unique) stable ascending sort by `startTimeMs` mandated by ECMAScript
`Array.prototype.sort`, realised as stable insertion sort. -/
def sortSegmentsByStart (segs : List TranscriptSegment) : List TranscriptSegment :=
  segs.foldl (fun acc s => insertByStart s acc) []

/-- One speaker-turn `div` appended to `partialTranscriptDiv`: the speaker
label span plus the flattened contents of the transcript span it holds. -/
structure SpeakerBlock where
  speakerLabel : String
  tokens : List RenderedToken
deriving DecidableEq, Repr

/-- State of the rendering walk of `updatePartialTranscriptDiv`: the blocks
appended so far and `speakerToTranscriptSpanMap`, mapping an attendee id to
the index of the block whose span it currently aliases. -/
structure RenderAcc where
  blocks : List SpeakerBlock
  spanMap : List (String × Nat)
deriving DecidableEq, Repr

/-- Empty rendering state (fresh `div`, fresh span map). -/
def RenderAcc.init : RenderAcc :=
  { blocks := [], spanMap := [] }

/-- Replace the element at index `i` (out-of-range indices leave the list
unchanged). -/
def modifyAt {α : Type} (f : α → α) : Nat → List α → List α
  | _, [] => []
  | 0, x :: xs => f x :: xs
  | n + 1, x :: xs => x :: modifyAt f n xs

/-- `Array.prototype.indexOf` restricted to present elements: index of the
first occurrence (returns the length when absent; the code only calls it on
keys known to be present). -/
def listIdxOf (k : String) : List String → Nat
  | [] => 0
  | x :: xs => if x = k then 0 else listIdxOf k xs + 1

/-- The speaker label text: `externalUserId.split('#').slice(-1)[0] + ': '`. -/
def speakerLabelOf (a : Attendee) : String :=
  splitHashLast a.externalUserId ++ ": "

/-- `appendNewSpeakerTranscriptDiv(segment, speakerToTranscriptSpanMap)`
(lines 3981–3999): append a fresh speaker `div` holding the segment's span
and record that span (its block index) for the attendee. -/
def appendNewSpeakerTranscriptDiv (acc : RenderAcc) (segment : TranscriptSegment) : RenderAcc :=
  { blocks := acc.blocks ++ [{ speakerLabel := speakerLabelOf segment.attendee
                               tokens := segment.contentSpan }]
    spanMap := jsMapSet acc.spanMap segment.attendee.attendeeId acc.blocks.length }

/-- Body of the segment loop of `updatePartialTranscriptDiv`
(lines 3893–3910): a speaker with no open span opens a new block; a speaker
whose open span is not the most recently opened one has its old span
forgotten and a brand-new block opened; the most recently opened speaker has
the segment appended to its span behind a non-breaking-space span. -/
def renderSegment (acc : RenderAcc) (segment : TranscriptSegment) : RenderAcc :=
  let sid := segment.attendee.attendeeId
  match jsMapGet acc.spanMap sid with
  | none => appendNewSpeakerTranscriptDiv acc segment
  | some idx =>
    let speakers := acc.spanMap.map Prod.fst
    if listIdxOf sid speakers < speakers.length - 1 then
      appendNewSpeakerTranscriptDiv { acc with spanMap := jsMapDelete acc.spanMap sid } segment
    else
      { acc with
        blocks := modifyAt
          (fun b => { b with tokens := b.tokens ++ spaceToken :: segment.contentSpan })
          idx acc.blocks }

/-- Segment collection step of `updatePartialTranscriptDiv`: run the builder
over every result currently in `partialTranscriptResultMap`, accumulating
into one list; the first malformed result propagates its throw. -/
def buildAllSegments (noSep : Bool) (entitySet : List String)
    (results : List TranscriptResult) : Except Unit (List TranscriptSegment) :=
  results.foldlM (populatePartialTranscriptSegmentsFromResult noSep entitySet) []

/-- `updatePartialTranscriptDiv()` (lines 3884–3911) as a function of the
session flags and the result map: clear the `div`, rebuild all segments,
sort them by `startTimeMs`, and walk them with `renderSegment`. -/
def updatePartialTranscriptDiv (noSep : Bool) (entitySet : List String)
    (resultMap : List (String × TranscriptResult)) : Except Unit (List SpeakerBlock) :=
  match buildAllSegments noSep entitySet (resultMap.map Prod.snd) with
  | .error e => .error e
  | .ok segs =>
    .ok ((sortSegmentsByStart segs).foldl renderSegment RenderAcc.init).blocks

/-- The transcription-related fields of the demo class.  `resultMap` embeds
`partialTranscriptResultMap`, `resultTimeMap` embeds
`partialTranscriptResultTimeMap`, and `transcriptDiv` embeds
`partialTranscriptDiv` (`none` = `null`). -/
structure TranscriptionState where
  enableLiveTranscription : Bool
  noWordSeparatorForTranscription : Bool
  transcriptEntitySet : List String
  resultMap : List (String × TranscriptResult)
  resultTimeMap : List (String × Int)
  transcriptDiv : Option (List SpeakerBlock)
deriving DecidableEq, Repr

/-- State at meeting initialization: empty maps and set, no current `div`,
transcription not yet enabled (the class initializer sets
`enableLiveTranscription = true` but meeting setup resets it to `false`,
line 1761; the handler re-enables it on the first event either way). -/
def initialState : TranscriptionState :=
  { enableLiveTranscription := false
    noWordSeparatorForTranscription := false
    transcriptEntitySet := []
    resultMap := []
    resultTimeMap := []
    transcriptDiv := none }

/-- The per-result language check of the `Transcript` branch
(lines 3826–3829): a truthy `languageCode` in `LANGUAGES_NO_WORD_SEPARATOR`
sets the session flag. -/
def applyResultLanguageCode (st : TranscriptionState) (lc : Option String) : TranscriptionState :=
  match lc with
  | some l =>
    if LANGUAGES_NO_WORD_SEPARATOR.contains l then
      { st with noWordSeparatorForTranscription := true }
    else st
  | none => st

/-- Entity extraction of a finalized result (lines 3831–3840): each entity's
`content` is split on spaces and every piece added to `transcriptEntitySet`. -/
def addEntityTokens (s : List String) (entities : List TranscriptEntity) : List String :=
  entities.foldl (fun acc e => (jsSplitSpace e.content).foldl jsSetAdd acc) s

/-- The eviction loop of the finalized-result path (lines 3850–3856):
iterate `partialTranscriptResultTimeMap` in insertion order, `break` on
reaching the just-finalized `resultId`, and delete every earlier key whose
recorded end time is strictly below `result.endTimeMs - 5000`. -/
def evictLoop : List (String × Int) → String → Int → List (String × Int)
  | [], _, _ => []
  | (k, t) :: rest, rid, ref =>
    if k = rid then (k, t) :: rest
    else if t < ref - 5000 then evictLoop rest rid ref
    else (k, t) :: evictLoop rest rid ref

/-- Upsert, render and (for finalized results) evict: the tail of the
per-result body of the `Transcript` branch (lines 3841–3865).  A render
throw (`updatePartialTranscriptDiv` hitting a malformed resident result)
leaves the freshly cleared, still-empty `div` in place and reports `false`. -/
def upsertAndRender (st : TranscriptionState) (result : TranscriptResult) :
    TranscriptionState × Bool :=
  let st := { st with
    resultMap := jsMapSet st.resultMap result.resultId result
    resultTimeMap := jsMapSet st.resultTimeMap result.resultId result.endTimeMs }
  match updatePartialTranscriptDiv st.noWordSeparatorForTranscription
      st.transcriptEntitySet st.resultMap with
  | .error _ => ({ st with transcriptDiv := some [] }, false)
  | .ok blocks =>
    let st := { st with transcriptDiv := some blocks }
    if result.isPartial then (st, true)
    else
      let tm := jsMapDelete (evictLoop st.resultTimeMap result.resultId result.endTimeMs)
        result.resultId
      let st := { st with resultTimeMap := tm, transcriptEntitySet := [] }
      if tm.isEmpty then
        ({ st with transcriptDiv := none, resultMap := [] }, true)
      else
        (st, true)

/-- The per-result body of the `Transcript` branch (lines 3824–3866).
Reading `alternatives[0].entities` of a finalized result with no
alternative throws before the maps are touched. -/
def processResult (st : TranscriptionState) (result : TranscriptResult) :
    TranscriptionState × Bool :=
  let st := applyResultLanguageCode st result.languageCode
  if result.isPartial then
    upsertAndRender st result
  else
    match result.alternatives.head? with
    | none => (st, false)
    | some alt0 =>
      let st :=
        match alt0.entities with
        | some entities =>
          if entities.length > 0 then
            { st with transcriptEntitySet := addEntityTokens st.transcriptEntitySet entities }
          else st
        | none => st
      upsertAndRender st result

/-- The result loop of the `Transcript` branch: a throw aborts the rest of
the batch (the exception escapes the handler) but keeps the state mutated so
far. -/
def processResults : TranscriptionState → List TranscriptResult → TranscriptionState × Bool
  | st, [] => (st, true)
  | st, r :: rs =>
    match processResult st r with
    | (st1, true) => processResults st1 rs
    | (st1, false) => (st1, false)

/-- Status event types of the SDK (`TranscriptionStatusType`). -/
inductive TranscriptionStatusType where
  | started
  | interrupted
  | resumed
  | stopped
  | failed
deriving DecidableEq, Repr

/-- The parsed shape of `transcriptionConfiguration` that the STARTED branch
inspects: each engine-settings object is either absent or carries an optional
language code (`EngineTranscribeSettings.LanguageCode` respectively
`EngineTranscribeMedicalSettings.languageCode`). -/
structure TranscriptionConfigurationModel where
  engineTranscribeSettings : Option (Option String)
  engineTranscribeMedicalSettings : Option (Option String)
deriving DecidableEq, Repr

/-- A `TranscriptionStatus` event; the JSON configuration string is embedded
by its parsed value (`none` = `JSON.parse` produced a falsy value). -/
structure TranscriptionStatus where
  type : TranscriptionStatusType
  transcriptionConfiguration : Option TranscriptionConfigurationModel
deriving DecidableEq, Repr

/-- The `languageCode` local of the STARTED branch (lines 3792–3801): read
`EngineTranscribeSettings.LanguageCode`, falling back to
`EngineTranscribeMedicalSettings.languageCode`, from the parsed
configuration (`null` when the parse was falsy). -/
def derivedStatusLanguageCode (cfg? : Option TranscriptionConfigurationModel) :
    Option String :=
  match cfg? with
  | none => none
  | some cfg =>
    match cfg.engineTranscribeSettings with
    | some l => l
    | none =>
      match cfg.engineTranscribeMedicalSettings with
      | some l => l
      | none => none

/-- The `TranscriptionStatus` branch of the handler (lines 3789–3821):
STARTED derives `noWordSeparatorForTranscription` from the configured
language code; STOPPED and FAILED (transcription being enabled, which the
handler prologue guarantees) disable transcription, reset the separator
flag, clear both maps and drop the current `div`. -/
def processStatus (st : TranscriptionState) (status : TranscriptionStatus) :
    TranscriptionState :=
  match status.type with
  | .started =>
    (match derivedStatusLanguageCode status.transcriptionConfiguration with
     | some l =>
       if LANGUAGES_NO_WORD_SEPARATOR.contains l then
         { st with noWordSeparatorForTranscription := true }
       else st
     | none => st)
  | .stopped | .failed =>
    if st.enableLiveTranscription then
      { st with
        enableLiveTranscription := false
        noWordSeparatorForTranscription := false
        resultTimeMap := []
        transcriptDiv := none
        resultMap := [] }
    else st
  | _ => st

/-- The two event shapes delivered to `transcriptEventHandler`. -/
inductive TranscriptEvent where
  | status (s : TranscriptionStatus)
  | transcript (results : List TranscriptResult)
deriving DecidableEq, Repr

/-- `transcriptEventHandler(transcriptEvent)` (lines 3777–3868): the prologue
enables live transcription on any event, then the status or transcript
branch runs.  The Boolean reports completion without a throw. -/
def transcriptEventHandler (st : TranscriptionState) (ev : TranscriptEvent) :
    TranscriptionState × Bool :=
  let st :=
    if st.enableLiveTranscription = false then
      { st with enableLiveTranscription := true }
    else st
  match ev with
  | .status s => (processStatus st s, true)
  | .transcript results => processResults st results

/-- Deliver a sequence of events from the SDK, one handler call each; the
Boolean is `true` exactly when no call threw. -/
def processEvents : TranscriptionState → List TranscriptEvent → TranscriptionState × Bool
  | st, [] => (st, true)
  | st, ev :: evs =>
    let p := transcriptEventHandler st ev
    let q := processEvents p.1 evs
    (q.1, p.2 && q.2)

/-- Store invariant relating the two maps: every key still tracked in
`partialTranscriptResultTimeMap` is stored in `partialTranscriptResultMap`
with `isPartial = true`.  (The result map itself may also hold finalized
results; see the C1 theorems.) -/
def StoreInv (st : TranscriptionState) : Prop :=
  ∀ k, (jsMapGet st.resultTimeMap k).isSome = true →
    ∃ r, jsMapGet st.resultMap k = some r ∧ r.isPartial = true

/-- Renderer-walk invariant: the span map has pairwise distinct attendee
ids, and every recorded span index points at an existing block. -/
def RenderInv (acc : RenderAcc) : Prop :=
  (acc.spanMap.map Prod.fst).Nodup ∧ ∀ p ∈ acc.spanMap, p.2 < acc.blocks.length

/-- An alternative with no items and no entities attribute. -/
def emptyAlternative : TranscriptAlternative :=
  { items := [], entities := none }

/-- C1 input: an ordinary partial result. -/
def c1resP : TranscriptResult :=
  { resultId := "p", isPartial := true, languageCode := none
    alternatives := [emptyAlternative], endTimeMs := 1000 }

/-- C1 input: a finalized result arriving while `c1resP` is still tracked. -/
def c1resF : TranscriptResult :=
  { resultId := "f", isPartial := false, languageCode := none
    alternatives := [emptyAlternative], endTimeMs := 1200 }

/-- C1 witness input: a lone partial result. -/
def c1resW : TranscriptResult :=
  { resultId := "w", isPartial := true, languageCode := none
    alternatives := [emptyAlternative], endTimeMs := 500 }

/-- C2 input: partial result inserted first, later finalized. -/
def c2resR : TranscriptResult :=
  { resultId := "r", isPartial := true, languageCode := none
    alternatives := [emptyAlternative], endTimeMs := 10000 }

/-- C2 input: stale partial result inserted after `c2resR`. -/
def c2resK : TranscriptResult :=
  { resultId := "k", isPartial := true, languageCode := none
    alternatives := [emptyAlternative], endTimeMs := 1000 }

/-- C2 input: the finalized update of `c2resR` (same id and end time). -/
def c2resRF : TranscriptResult :=
  { resultId := "r", isPartial := false, languageCode := none
    alternatives := [emptyAlternative], endTimeMs := 10000 }

/-- C3 input: malformed result with an empty `alternatives` array. -/
def c3malformed : TranscriptResult :=
  { resultId := "m", isPartial := true, languageCode := none
    alternatives := [], endTimeMs := 100 }

/-- C3 input: well-formed result processed after the malformed one. -/
def c3good : TranscriptResult :=
  { resultId := "g", isPartial := true, languageCode := none
    alternatives := [emptyAlternative], endTimeMs := 200 }

/-- C3 input: well-formed result whose best alternative has no items. -/
def c3emptyItems : TranscriptResult :=
  { resultId := "e", isPartial := true, languageCode := none
    alternatives := [emptyAlternative], endTimeMs := 300 }

/-- C3 witness input: a finalized result with an empty `alternatives` array,
whose throw happens at entity extraction before the Store is touched. -/
def c3malformedFinal : TranscriptResult :=
  { resultId := "mf", isPartial := false, languageCode := none
    alternatives := [], endTimeMs := 400 }

/-- C4 input: malformed partial result left resident by a throw. -/
def c4malformed : TranscriptResult :=
  { resultId := "m", isPartial := true, languageCode := none
    alternatives := [], endTimeMs := 100 }

/-- C4 input: finalized result carrying one entity; its render throws on the
resident malformed result, so the entity set is never cleared. -/
def c4final : TranscriptResult :=
  { resultId := "f", isPartial := false, languageCode := none
    alternatives := [{ items := [], entities := some [{ content := "Bob" }] }]
    endTimeMs := 200 }

/-- C5 failing input, item part: one word starting at time zero. -/
def c5item : TranscriptItem :=
  { content := "hello", type := .pronunciation, startTimeMs := 0, endTimeMs := 500
    attendee := { attendeeId := "x", externalUserId := "user#X" }, confidence := none }

/-- C5 failing input: the spec scenario result
`{resultId:"r1", isPartial:true, alternatives:[{items:[hello@0..500]}], endTimeMs:500}`. -/
def c5result : TranscriptResult :=
  { resultId := "r1", isPartial := true, languageCode := none
    alternatives := [{ items := [c5item], entities := none }], endTimeMs := 500 }

/-- C6 input: a redaction placeholder with confidence 0. -/
def c6redacted : TranscriptItem :=
  { content := "[NAME]", type := .pronunciation, startTimeMs := 0, endTimeMs := 100
    attendee := { attendeeId := "x", externalUserId := "user#X" }, confidence := some 0 }

/-- C6 input: an ordinary word with confidence 0.2. -/
def c6word : TranscriptItem :=
  { content := "word", type := .pronunciation, startTimeMs := 0, endTimeMs := 100
    attendee := { attendeeId := "x", externalUserId := "user#X" }
    confidence := some ((2 : Rat) / 10) }

/-- C7/C8 witness input: builder state with an open run. -/
def cOpenRun : SBState :=
  { startTimeMs := some 100
    attendee := some { attendeeId := "x", externalUserId := "user#X" }
    contentSpan := [{ text := "hi", lowConfidence := false, entityHighlight := false }] }

/-- C7 witness input: a plain word item. -/
def c7word : TranscriptItem :=
  { content := "there", type := .pronunciation, startTimeMs := 600, endTimeMs := 900
    attendee := { attendeeId := "x", externalUserId := "user#X" }, confidence := none }

/-- C8 counterexample input: word starting at time zero. -/
def c8helloItem : TranscriptItem :=
  { content := "hello", type := .pronunciation, startTimeMs := 0, endTimeMs := 500
    attendee := { attendeeId := "x", externalUserId := "user#X" }, confidence := none }

/-- C8 counterexample input: closing punctuation following `c8helloItem`. -/
def c8dotItem : TranscriptItem :=
  { content := ".", type := .punctuation, startTimeMs := 550, endTimeMs := 600
    attendee := { attendeeId := "x", externalUserId := "user#X" }, confidence := none }

/-- C8 counterexample input: the result holding the two items above. -/
def c8result : TranscriptResult :=
  { resultId := "r1", isPartial := false, languageCode := none
    alternatives := [{ items := [c8helloItem, c8dotItem], entities := none }]
    endTimeMs := 650 }

/-- C8 witness input: a punctuation item with a nonzero-start run open. -/
def c8punct : TranscriptItem :=
  { content := ".", type := .punctuation, startTimeMs := 550, endTimeMs := 600
    attendee := { attendeeId := "x", externalUserId := "user#X" }, confidence := none }

/-- C9 witness input: first segment from speaker A. -/
def c9segA : TranscriptSegment :=
  { contentSpan := [{ text := "hi", lowConfidence := false, entityHighlight := false }]
    attendee := { attendeeId := "a", externalUserId := "user#A" }
    startTimeMs := 100, endTimeMs := 200 }

/-- C9 witness input: second segment from the same speaker A. -/
def c9segA2 : TranscriptSegment :=
  { contentSpan := [{ text := "again", lowConfidence := false, entityHighlight := false }]
    attendee := { attendeeId := "a", externalUserId := "user#A" }
    startTimeMs := 300, endTimeMs := 400 }

/-- C9 witness input: a renderer state where speaker `a` has an open span but
speaker `b` opened one after it. -/
def c9accInterjected : RenderAcc :=
  { blocks := [{ speakerLabel := "A: ", tokens := [] }, { speakerLabel := "B: ", tokens := [] }]
    spanMap := [("a", 0), ("b", 1)] }

/-- C10 witness input: a tracked partial result. -/
def c10res : TranscriptResult :=
  { resultId := "r1", isPartial := true, languageCode := none
    alternatives := [emptyAlternative], endTimeMs := 500 }

/-- Effect claimed for a terminating status event of the given type: the
handler completes, disables transcription, resets the separator flag, clears
both Store maps, drops the current rendering block, and leaves the entity
set untouched. -/
def statusClears (st : TranscriptionState) (cfg : Option TranscriptionConfigurationModel)
    (ty : TranscriptionStatusType) : Prop :=
  (transcriptEventHandler st (TranscriptEvent.status
    { type := ty, transcriptionConfiguration := cfg })).2 = true ∧
  ((transcriptEventHandler st (TranscriptEvent.status
    { type := ty, transcriptionConfiguration := cfg })).1 =
    { st with
      enableLiveTranscription := false
      noWordSeparatorForTranscription := false
      resultTimeMap := []
      transcriptDiv := none
      resultMap := [] })

/-! Association-list lemmas for the ECMAScript `Map` model. -/

theorem jsMapGet_eq_none_iff {β : Type} (m : List (String × β)) (k : String) :
    jsMapGet m k = none ↔ ∀ p ∈ m, p.1 ≠ k := by
  induction m with
  | nil => simp [jsMapGet]
  | cons p rest ih =>
    by_cases hp : p.1 = k <;> simp [jsMapGet, hp, ih]

theorem jsMapHas_eq_false_iff {β : Type} (m : List (String × β)) (k : String) :
    jsMapHas m k = false ↔ ∀ p ∈ m, p.1 ≠ k := by
  induction m with
  | nil => simp [jsMapHas]
  | cons p rest ih =>
    by_cases hp : p.1 = k <;> simp [jsMapHas, hp, ih]

theorem jsMapGet_append {β : Type} (m l : List (String × β)) (k : String) :
    jsMapGet (m ++ l) k =
      match jsMapGet m k with
      | some v => some v
      | none => jsMapGet l k := by
  induction m with
  | nil => simp [jsMapGet]
  | cons p rest ih =>
    by_cases hp : p.1 = k <;> simp [jsMapGet, hp, ih]

theorem jsMapGet_set_self {β : Type} (m : List (String × β)) (k : String) (v : β) :
    jsMapGet (jsMapSet m k v) k = some v := by
  induction m with
  | nil => simp [jsMapSet, jsMapHas, jsMapGet]
  | cons p rest ih =>
    by_cases hp : p.1 = k
    · simp [jsMapSet, jsMapHas, jsMapGet, hp]
    · by_cases hh : jsMapHas rest k
      · simp only [jsMapSet, jsMapHas, hp, if_false, hh, if_true, List.map_cons]
        simp only [jsMapSet, hh, if_true] at ih
        simp [jsMapGet, hp, ih]
      · simp only [jsMapSet, jsMapHas, hp, if_false, hh, Bool.false_eq_true, List.cons_append]
        simp only [jsMapSet, hh, Bool.false_eq_true, if_false] at ih
        simp [jsMapGet, hp, ih]

theorem jsMapGet_mapReplace_ne {β : Type} (m : List (String × β)) (k q : String) (v : β)
    (hkq : k ≠ q) :
    jsMapGet (m.map (fun p => if p.1 = k then (k, v) else p)) q = jsMapGet m q := by
  induction m with
  | nil => rfl
  | cons p rest ih =>
    by_cases hp : p.1 = k
    · have hpq : p.1 ≠ q := by rw [hp]; exact hkq
      simp only [List.map_cons, if_pos hp]
      rw [jsMapGet, jsMapGet, if_neg hkq, if_neg hpq, ih]
    · simp only [List.map_cons, if_neg hp]
      by_cases hpq : p.1 = q
      · rw [jsMapGet, jsMapGet, if_pos hpq, if_pos hpq]
      · rw [jsMapGet, jsMapGet, if_neg hpq, if_neg hpq, ih]

theorem jsMapGet_set_ne {β : Type} (m : List (String × β)) (k q : String) (v : β)
    (hne : q ≠ k) : jsMapGet (jsMapSet m k v) q = jsMapGet m q := by
  have hkq : k ≠ q := Ne.symm hne
  by_cases hh : jsMapHas m k
  · simp only [jsMapSet, hh, if_true]
    exact jsMapGet_mapReplace_ne m k q v hkq
  · simp only [jsMapSet, hh, Bool.false_eq_true, if_false]
    rw [jsMapGet_append]
    cases hm : jsMapGet m q <;> simp [jsMapGet, hkq]

theorem jsMapGet_delete_self {β : Type} (m : List (String × β)) (k : String) :
    jsMapGet (jsMapDelete m k) k = none := by
  induction m with
  | nil => simp [jsMapDelete, jsMapGet]
  | cons p rest ih =>
    by_cases hp : p.1 = k <;> simp [jsMapDelete, jsMapGet, hp, ih]

theorem jsMapGet_delete_ne {β : Type} (m : List (String × β)) (k q : String)
    (hne : q ≠ k) : jsMapGet (jsMapDelete m k) q = jsMapGet m q := by
  induction m with
  | nil => rfl
  | cons p rest ih =>
    by_cases hp : p.1 = k
    · have hpq : p.1 ≠ q := by rw [hp]; exact Ne.symm hne
      simp only [jsMapDelete, if_pos hp]
      rw [ih, jsMapGet, if_neg hpq]
    · simp only [jsMapDelete, if_neg hp]
      by_cases hpq : p.1 = q
      · rw [jsMapGet, jsMapGet, if_pos hpq, if_pos hpq]
      · rw [jsMapGet, jsMapGet, if_neg hpq, if_neg hpq, ih]

theorem jsMapDelete_of_no_key {β : Type} {m : List (String × β)} {k : String}
    (h : ∀ p ∈ m, p.1 ≠ k) : jsMapDelete m k = m := by
  induction m with
  | nil => rfl
  | cons p rest ih =>
    have hp : p.1 ≠ k := h p (by simp)
    simp only [jsMapDelete, hp, if_false]
    rw [ih (fun q hq => h q (by simp [hq]))]

theorem evictLoop_isSome_mono {m : List (String × Int)} {rid k : String} {ref : Int}
    (h : (jsMapGet (evictLoop m rid ref) k).isSome = true) :
    (jsMapGet m k).isSome = true := by
  induction m with
  | nil => simpa [evictLoop] using h
  | cons p rest ih =>
    obtain ⟨a, b⟩ := p
    by_cases hp : a = rid
    · simpa [evictLoop, hp] using h
    · by_cases hk : a = k
      · simp [jsMapGet, hk]
      · by_cases hst : b < ref - 5000
        · simp only [evictLoop, hp, if_false, hst, if_true] at h
          simp [jsMapGet, hk, ih h]
        · simp only [evictLoop, hp, if_false, hst] at h
          simp only [jsMapGet, hk, if_false] at h ⊢
          exact ih h

theorem jsMapHas_of_get {β : Type} {m : List (String × β)} {k : String} {v : β}
    (h : jsMapGet m k = some v) : jsMapHas m k = true := by
  induction m with
  | nil => simp [jsMapGet] at h
  | cons p rest ih =>
    by_cases hp : p.1 = k
    · simp [jsMapHas, hp]
    · rw [jsMapGet, if_neg hp] at h
      simp [jsMapHas, hp, ih h]

theorem jsMapMapReplace_eq_self {β : Type} {m : List (String × β)} {k : String} {v : β}
    (hget : jsMapGet m k = some v) (hnd : (m.map Prod.fst).Nodup) :
    m.map (fun p => if p.1 = k then (k, v) else p) = m := by
  induction m with
  | nil => rfl
  | cons p rest ih =>
    obtain ⟨a, b⟩ := p
    rw [List.map_cons] at hnd ⊢
    have hnd1 := (List.nodup_cons.mp hnd).1
    have hnd2 := (List.nodup_cons.mp hnd).2
    by_cases hp : a = k
    · rw [jsMapGet, if_pos hp] at hget
      have hv : b = v := by simpa using hget
      have hrest : ∀ q ∈ rest, (q : String × β).1 ≠ k := by
        intro q hq he
        exact hnd1 (by rw [hp, ← he]; exact List.mem_map.mpr ⟨q, hq, rfl⟩)
      have hmap : rest.map (fun p => if p.1 = k then (k, v) else p) = rest := by
        rw [List.map_congr_left (fun q hq => by rw [if_neg (hrest q hq)]), List.map_id']
      subst hp
      subst hv
      simp [hmap]
    · rw [jsMapGet, if_neg hp] at hget
      simp only [if_neg hp]
      rw [ih hget hnd2]

theorem jsMapSet_eq_self {β : Type} {m : List (String × β)} {k : String} {v : β}
    (hget : jsMapGet m k = some v) (hnd : (m.map Prod.fst).Nodup) :
    jsMapSet m k v = m := by
  unfold jsMapSet
  rw [if_pos (jsMapHas_of_get hget)]
  exact jsMapMapReplace_eq_self hget hnd

theorem jsMapSet_of_absent {β : Type} {m : List (String × β)} {k : String} (v : β)
    (h : ∀ p ∈ m, p.1 ≠ k) : jsMapSet m k v = m ++ [(k, v)] := by
  have hf : jsMapHas m k = false := (jsMapHas_eq_false_iff m k).mpr h
  unfold jsMapSet
  rw [hf]
  simp

theorem jsMapDelete_sublist {β : Type} (m : List (String × β)) (k : String) :
    (jsMapDelete m k).Sublist m := by
  induction m with
  | nil => simp [jsMapDelete]
  | cons p rest ih =>
    by_cases hp : p.1 = k
    · rw [jsMapDelete, if_pos hp]
      exact ih.cons p
    · rw [jsMapDelete, if_neg hp]
      exact ih.cons₂ p

theorem modifyAt_length {α : Type} (f : α → α) (n : Nat) (l : List α) :
    (modifyAt f n l).length = l.length := by
  induction l generalizing n with
  | nil => cases n <;> rfl
  | cons x xs ih => cases n with
    | zero => rfl
    | succ n => simp [modifyAt, ih]

theorem jsMapGet_mem_keys {β : Type} {m : List (String × β)} {k : String} {v : β}
    (h : jsMapGet m k = some v) : k ∈ m.map Prod.fst := by
  induction m with
  | nil => simp [jsMapGet] at h
  | cons p rest ih =>
    by_cases hp : p.1 = k
    · simp [hp.symm]
    · rw [jsMapGet, if_neg hp] at h
      simp [ih h]

theorem listIdxOf_lt_length {k : String} {l : List String} (h : k ∈ l) :
    listIdxOf k l < l.length := by
  induction l with
  | nil => simp at h
  | cons x xs ih =>
    by_cases hx : x = k
    · simp [listIdxOf, hx]
    · have hk : k ∈ xs := by
        rcases List.mem_cons.mp h with h1 | h1
        · exact absurd h1.symm hx
        · exact h1
      simp only [listIdxOf, if_neg hx, List.length_cons]
      exact Nat.succ_lt_succ (ih hk)

theorem listIdxOf_getLast {l : List String} {k : String} (hnd : l.Nodup)
    (hl : l.getLast? = some k) : listIdxOf k l = l.length - 1 := by
  induction l with
  | nil => simp at hl
  | cons x xs ih =>
    cases xs with
    | nil =>
      have hx : x = k := by simpa using hl
      simp [listIdxOf, hx]
    | cons y ys =>
      rw [List.getLast?_cons_cons] at hl
      have hmem : k ∈ y :: ys := List.mem_of_mem_getLast? hl
      have hx : x ≠ k := by
        intro he
        subst he
        exact (List.nodup_cons.mp hnd).1 hmem
      have ihr := ih (List.nodup_cons.mp hnd).2 hl
      simp only [listIdxOf, if_neg hx, List.length_cons] at ihr ⊢
      omega

theorem getLast_of_not_lt_idxOf {l : List String} {k : String} (hnd : l.Nodup) (hmem : k ∈ l)
    (h : ¬ listIdxOf k l < l.length - 1) : l.getLast? = some k := by
  induction l with
  | nil => simp at hmem
  | cons x xs ih =>
    cases xs with
    | nil =>
      have hx : k = x := by simpa using hmem
      simp [hx]
    | cons y ys =>
      by_cases hx : x = k
      · exfalso
        apply h
        simp [listIdxOf, hx, List.length_cons]
      · have hmem' : k ∈ y :: ys := by
          rcases List.mem_cons.mp hmem with h1 | h1
          · exact absurd h1.symm hx
          · exact h1
        have h' : ¬ listIdxOf k (y :: ys) < (y :: ys).length - 1 := by
          intro hlt
          apply h
          simp only [listIdxOf, if_neg hx, List.length_cons] at hlt ⊢
          omega
        rw [List.getLast?_cons_cons]
        exact ih (List.nodup_cons.mp hnd).2 hmem' h'

theorem jsMapGet_getLast {β : Type} {m : List (String × β)} {k : String} {v : β}
    (hnd : (m.map Prod.fst).Nodup) (hl : m.getLast? = some (k, v)) :
    jsMapGet m k = some v := by
  induction m with
  | nil => simp at hl
  | cons p rest ih =>
    cases rest with
    | nil =>
      have hp : p = (k, v) := by simpa using hl
      subst hp
      simp [jsMapGet]
    | cons q qs =>
      rw [List.getLast?_cons_cons] at hl
      have hmem : (k, v) ∈ q :: qs := List.mem_of_mem_getLast? hl
      have hkmem : k ∈ (q :: qs).map Prod.fst := List.mem_map.mpr ⟨(k, v), hmem, rfl⟩
      rw [List.map_cons] at hnd
      have hp : p.1 ≠ k := by
        intro he
        exact (List.nodup_cons.mp hnd).1 (he ▸ hkmem)
      rw [jsMapGet, if_neg hp]
      exact ih (List.nodup_cons.mp hnd).2 hl

theorem evictLoop_split (pre post : List (String × Int)) (rid : String) (t ref : Int)
    (hpre : ∀ p ∈ pre, p.1 ≠ rid) :
    evictLoop (pre ++ (rid, t) :: post) rid ref =
      pre.filter (fun p => !decide (p.2 < ref - 5000)) ++ (rid, t) :: post := by
  induction pre with
  | nil => simp [evictLoop]
  | cons p pre ih =>
    obtain ⟨a, b⟩ := p
    have ha : a ≠ rid := hpre (a, b) (by simp)
    have ihr := ih (fun q hq => hpre q (by simp [hq]))
    by_cases hb : b < ref - 5000
    · rw [List.cons_append, evictLoop]
      simp only [if_neg ha, if_pos hb]
      rw [ihr]
      simp [List.filter_cons, hb]
    · rw [List.cons_append, evictLoop]
      simp only [if_neg ha, if_neg hb]
      rw [ihr]
      simp [List.filter_cons, hb]

theorem jsMapDelete_append {β : Type} (l1 l2 : List (String × β)) (k : String) :
    jsMapDelete (l1 ++ l2) k = jsMapDelete l1 k ++ jsMapDelete l2 k := by
  induction l1 with
  | nil => simp [jsMapDelete]
  | cons p rest ih =>
    by_cases hp : p.1 = k
    · rw [List.cons_append, jsMapDelete, if_pos hp, jsMapDelete, if_pos hp, ih]
    · rw [List.cons_append, jsMapDelete, if_neg hp, jsMapDelete, if_neg hp, ih, List.cons_append]

/-- C2 (corrected, counterexample): the claim says the eviction threshold is
applied to every tracked key regardless of position, but the loop breaks at
the just-finalized `resultId`.  After the two batches below, key `k`
(end time 1000, inserted after `r`) survives even though
`1000 < 10000 - 5000`. -/
theorem c2_counterexample :
    (processEvents initialState
      [TranscriptEvent.transcript [c2resR, c2resK],
       TranscriptEvent.transcript [c2resRF]]).2 = true ∧
    (processEvents initialState
      [TranscriptEvent.transcript [c2resR, c2resK],
       TranscriptEvent.transcript [c2resRF]]).1.resultTimeMap = [("k", 1000)] ∧
    ((1000 : Int) < 10000 - 5000) := by
  refine ⟨by decide, by decide, by decide⟩

/-- C2 (corrected, amended): processing a finalized result with id `rid`
checks only the keys inserted strictly before `rid` against the
`ref - 5000` threshold (deleting the stale ones), then removes `rid`
itself; every key inserted after `rid` survives unconditionally. -/
theorem c2_theorem (pre post : List (String × Int)) (rid : String) (t ref : Int)
    (hpre : ∀ p ∈ pre, p.1 ≠ rid) (hpost : ∀ p ∈ post, p.1 ≠ rid) :
    jsMapDelete (evictLoop (pre ++ (rid, t) :: post) rid ref) rid =
      pre.filter (fun p => !decide (p.2 < ref - 5000)) ++ post ∧
    ∀ p ∈ post, p ∈ jsMapDelete (evictLoop (pre ++ (rid, t) :: post) rid ref) rid := by
  have hsplit := evictLoop_split pre post rid t ref hpre
  have hdel : jsMapDelete (evictLoop (pre ++ (rid, t) :: post) rid ref) rid =
      pre.filter (fun p => !decide (p.2 < ref - 5000)) ++ post := by
    rw [hsplit, jsMapDelete_append]
    have h1 : jsMapDelete (pre.filter (fun p => !decide (p.2 < ref - 5000))) rid =
        pre.filter (fun p => !decide (p.2 < ref - 5000)) := by
      apply jsMapDelete_of_no_key
      intro p hp
      exact hpre p (List.mem_of_mem_filter hp)
    have h2 : jsMapDelete ((rid, t) :: post) rid = post := by
      rw [jsMapDelete, if_pos rfl]
      exact jsMapDelete_of_no_key hpost
    rw [h1, h2]
  refine ⟨hdel, ?_⟩
  intro p hp
  rw [hdel]
  exact List.mem_append_right _ hp

/-- C2 witness: a concrete instance of `c2_theorem` with a fresh key before
the reference and one key after it. -/
theorem c2_witness :
    jsMapDelete (evictLoop [("a", 1), ("r", 7000), ("z", 2)] "r" 10000) "r" = [("z", 2)] ∧
    ∀ p ∈ [(("z" : String), (2 : Int))],
      p ∈ jsMapDelete (evictLoop [("a", 1), ("r", 7000), ("z", 2)] "r" 10000) "r" := by
  have h := c2_theorem [("a", 1)] [("z", 2)] "r" 7000 10000 (by decide) (by decide)
  exact ⟨h.1.trans (by decide), h.2⟩

/-- C3 (corrected, counterexample): a result with an empty `alternatives`
array does not degrade gracefully: the handler throws (`false` completion),
the following result of the batch is never stored or rendered, and the
current `div` is left cleared. -/
theorem c3_counterexample :
    (processEvents initialState
      [TranscriptEvent.transcript [c3malformed, c3good]]).2 = false ∧
    jsMapGet (processEvents initialState
      [TranscriptEvent.transcript [c3malformed, c3good]]).1.resultMap "g" = none ∧
    (processEvents initialState
      [TranscriptEvent.transcript [c3malformed, c3good]]).1.transcriptDiv = some [] := by
  refine ⟨by decide, by decide, by decide⟩

/-- C3 (corrected, amended): a result whose best alternative exists but has
an empty item list degrades to an empty segment list without throwing, and a
batch of such results is processed to completion.  A missing
`alternatives[0]` instead throws: for a finalized result the throw happens at
entity extraction, before the upsert, leaving the whole state except the
session language flag untouched (third conjunct); for a partial result the
throw happens during rendering, after the upsert, leaving it resident with
the `div` cleared (see the counterexample). -/
theorem c3_theorem :
    (∀ (noSep : Bool) (es : List String) (segs : List TranscriptSegment)
       (r : TranscriptResult) (alt : TranscriptAlternative),
      r.alternatives.head? = some alt → alt.items = [] →
      populatePartialTranscriptSegmentsFromResult noSep es segs r = Except.ok segs) ∧
    (∀ (st : TranscriptionState) (r : TranscriptResult),
      r.isPartial = false → r.alternatives = [] →
      processResult st r = (applyResultLanguageCode st r.languageCode, false)) ∧
    (processEvents initialState
      [TranscriptEvent.transcript [c3emptyItems, c3good]]).2 = true ∧
    jsMapGet (processEvents initialState
      [TranscriptEvent.transcript [c3emptyItems, c3good]]).1.resultMap "g" = some c3good := by
  refine ⟨?_, ?_, by decide, by decide⟩
  · intro noSep es segs r alt h1 h2
    unfold populatePartialTranscriptSegmentsFromResult
    rw [h1]
    simp [h2, SBState.init, jsTruthy]
  · intro st r h1 h2
    simp [processResult, h1, h2]

/-- C3 witness: `c3_theorem` applied to the concrete empty-items result and
to a concrete finalized result with an empty `alternatives` array. -/
theorem c3_witness :
    (populatePartialTranscriptSegmentsFromResult false [] [] c3emptyItems = Except.ok []) ∧
    processResult initialState c3malformedFinal =
      (applyResultLanguageCode initialState c3malformedFinal.languageCode, false) :=
  ⟨c3_theorem.1 false [] [] c3emptyItems emptyAlternative rfl rfl,
   c3_theorem.2.1 initialState c3malformedFinal rfl rfl⟩

/-- C4 (corrected): on STOPPED or FAILED the handler disables transcription,
resets the separator flag, clears both Store maps and forgets the rendering
block — but it leaves `transcriptEntitySet` untouched, contrary to the
claim's "leaves the Entity Tracker's set empty" (the cleared-state record
below keeps `st.transcriptEntitySet`). -/
theorem c4_theorem :
    ∀ (st : TranscriptionState) (cfg : Option TranscriptionConfigurationModel),
      statusClears st cfg TranscriptionStatusType.stopped ∧
      statusClears st cfg TranscriptionStatusType.failed := by
  intro st cfg
  constructor <;>
    cases henable : st.enableLiveTranscription <;>
      simp [statusClears, transcriptEventHandler, processStatus, henable]

/-- C4 counterexample: a reachable state (a malformed partial result left
resident by one throw, then a finalized result whose render throws after
populating the entity set) in which transcription is enabled and the entity
set holds "Bob"; processing STOPPED clears the maps but leaves the entity
set non-empty, refuting "leaves the Entity Tracker's set empty". -/
theorem c4_counterexample :
    (processEvents initialState
      [TranscriptEvent.transcript [c4malformed],
       TranscriptEvent.transcript [c4final]]).1.enableLiveTranscription = true ∧
    (transcriptEventHandler
      (processEvents initialState
        [TranscriptEvent.transcript [c4malformed],
         TranscriptEvent.transcript [c4final]]).1
      (TranscriptEvent.status
        { type := TranscriptionStatusType.stopped,
          transcriptionConfiguration := none })).1.transcriptEntitySet = ["Bob"] ∧
    (transcriptEventHandler
      (processEvents initialState
        [TranscriptEvent.transcript [c4malformed],
         TranscriptEvent.transcript [c4final]]).1
      (TranscriptEvent.status
        { type := TranscriptionStatusType.stopped,
          transcriptionConfiguration := none })).1.resultMap = [] := by
  refine ⟨by decide, by decide, by decide⟩

/-- C5 (code bug evidence): on the spec scenario result — a single word item
with `startTimeMs = 0` — the builder returns an empty segment list: the
trailing `if (startTimeMs)` treats the open run's falsy start time 0 as "no
run open" and never closes it, contradicting the code's own comment
("Reached end of the result but there is no closing punctuation") and the
claimed single segment. -/
theorem c5_code_evaluation :
    populatePartialTranscriptSegmentsFromResult false [] [] c5result = Except.ok [] := by
  rfl

/-- C6 (confirmed): the low-confidence flag is set iff the item carries a
confidence value, its content does not start with a bracket, and the
confidence is below 0.3; in particular `"[NAME]"` with confidence 0 is not
flagged while `"word"` with confidence 0.2 is. -/
theorem c6_theorem :
    (∀ (entitySet : List String) (item : TranscriptItem),
      (renderTranscriptItem entitySet item).lowConfidence = true ↔
        ∃ c, item.confidence = some c ∧ startsWithLBracket item.content = false ∧
          c < (3 : Rat) / 10) ∧
    (renderTranscriptItem [] c6redacted).lowConfidence = false ∧
    (renderTranscriptItem [] c6word).lowConfidence = true := by
  refine ⟨?_, by decide, ?_⟩
  · intro es item
    cases hc : item.confidence with
    | none => simp [renderTranscriptItem, hc]
    | some c =>
      simp [renderTranscriptItem, hc, Bool.and_eq_true, Bool.not_eq_true']
  · have h1 : startsWithLBracket "word" = false := rfl
    have h2 : ((2 : Rat) / 10 < (3 : Rat) / 10) := by norm_num
    simp [renderTranscriptItem, c6word, h1, h2]

/-- C7 (confirmed): tokens of a run are concatenated without separator when
`noWordSeparatorForTranscription` is set (languages of
`LANGUAGES_NO_WORD_SEPARATOR`, e.g. ja-JP, set it), and with exactly one
preceding non-breaking-space token for each non-leading non-punctuation
token when it is unset; a leading token never gets a separator. -/
theorem c7_theorem :
    (∀ (lc : String) (st : TranscriptionState),
      LANGUAGES_NO_WORD_SEPARATOR.contains lc = true →
      (applyResultLanguageCode st (some lc)).noWordSeparatorForTranscription = true) ∧
    (∀ (es : List String) (st : SBState) (segs : List TranscriptSegment)
       (item : TranscriptItem),
      jsTruthy st.startTimeMs = true → item.type ≠ TranscriptItemType.punctuation →
      sbStep true es (st, segs) item =
        ({ st with contentSpan := st.contentSpan ++ [renderTranscriptItem es item] }, segs)) ∧
    (∀ (es : List String) (st : SBState) (segs : List TranscriptSegment)
       (item : TranscriptItem),
      jsTruthy st.startTimeMs = true → item.type ≠ TranscriptItemType.punctuation →
      sbStep false es (st, segs) item =
        ({ st with contentSpan :=
             st.contentSpan ++ [spaceToken, renderTranscriptItem es item] }, segs)) ∧
    (∀ (noSep : Bool) (es : List String) (st : SBState) (segs : List TranscriptSegment)
       (item : TranscriptItem),
      jsTruthy st.startTimeMs = false →
      sbStep noSep es (st, segs) item =
        ({ startTimeMs := some item.startTimeMs, attendee := some item.attendee,
           contentSpan := [renderTranscriptItem es item] }, segs)) := by
  refine ⟨?_, ?_, ?_, ?_⟩
  · intro lc st h
    have hm : lc ∈ LANGUAGES_NO_WORD_SEPARATOR := by simpa using h
    simp [applyResultLanguageCode, hm]
  · intro es st segs item h1 h2
    simp [sbStep, h1, h2]
  · intro es st segs item h1 h2
    simp [sbStep, h1, h2]
  · intro noSep es st segs item h1
    simp [sbStep, h1]

/-- C7 witness: `c7_theorem` instantiated on ja-JP and on a concrete open
run and word item. -/
theorem c7_witness :
    (applyResultLanguageCode initialState (some "ja-JP")).noWordSeparatorForTranscription
      = true ∧
    sbStep true [] (cOpenRun, []) c7word =
      ({ cOpenRun with contentSpan :=
           cOpenRun.contentSpan ++ [renderTranscriptItem [] c7word] }, []) ∧
    sbStep false [] (cOpenRun, []) c7word =
      ({ cOpenRun with contentSpan :=
           cOpenRun.contentSpan ++ [spaceToken, renderTranscriptItem [] c7word] }, []) ∧
    sbStep false [] (SBState.init, []) c7word =
      ({ startTimeMs := some c7word.startTimeMs, attendee := some c7word.attendee,
         contentSpan := [renderTranscriptItem [] c7word] }, []) :=
  ⟨c7_theorem.1 "ja-JP" initialState (by decide),
   c7_theorem.2.1 [] cOpenRun [] c7word (by decide) (by decide),
   c7_theorem.2.2.1 [] cOpenRun [] c7word (by decide) (by decide),
   c7_theorem.2.2.2 false [] SBState.init [] c7word (by decide)⟩

/-- C8 (corrected, counterexample): with an open run whose recorded start
time is 0 (first item at `startTimeMs = 0`), a following punctuation item
does not close the run: the builder discards the "hello" run and opens a new
run holding only ".", closed at the result end time 650 instead of the
punctuation end time 600. -/
theorem c8_counterexample :
    populatePartialTranscriptSegmentsFromResult false [] [] c8result =
      Except.ok [{ contentSpan := [{ text := ".", lowConfidence := false,
                                     entityHighlight := false }]
                   attendee := { attendeeId := "x", externalUserId := "user#X" }
                   startTimeMs := 550, endTimeMs := 650 }] := by
  rfl

/-- C8 (corrected, amended): for a punctuation item encountered while a run
with a nonzero recorded start time is open, the builder appends the token
with no separator, closes the run as a segment ending at the punctuation
item's end time, and resets the run state; from the reset state, the next
item opens a fresh run with its own start time and attendee. -/
theorem c8_theorem :
    (∀ (noSep : Bool) (es : List String) (segs : List TranscriptSegment)
       (st : SBState) (item : TranscriptItem) (s : Int) (a : Attendee),
      st.startTimeMs = some s → s ≠ 0 → st.attendee = some a →
      item.type = TranscriptItemType.punctuation →
      sbStep noSep es (st, segs) item =
        ({ startTimeMs := none, attendee := none,
           contentSpan := st.contentSpan ++ [renderTranscriptItem es item] },
         segs ++ [{ contentSpan := st.contentSpan ++ [renderTranscriptItem es item]
                    attendee := a, startTimeMs := s, endTimeMs := item.endTimeMs }])) ∧
    (∀ (noSep : Bool) (es : List String) (segs : List TranscriptSegment)
       (cspan : List RenderedToken) (item2 : TranscriptItem),
      sbStep noSep es
          ({ startTimeMs := none, attendee := none, contentSpan := cspan }, segs) item2 =
        ({ startTimeMs := some item2.startTimeMs, attendee := some item2.attendee,
           contentSpan := [renderTranscriptItem es item2] }, segs)) := by
  constructor
  · intro noSep es segs st item s a h1 h2 h3 h4
    have htruthy : jsTruthy (some s) = true := by
      simp [jsTruthy]
      exact h2
    simp [sbStep, h1, htruthy, h4, h3]
  · intro noSep es segs cspan item2
    simp [sbStep, jsTruthy]

/-- C8 witness: `c8_theorem` applied to a concrete open run and punctuation
item, then to the reset state. -/
theorem c8_witness :
    sbStep false [] (cOpenRun, []) c8punct =
      ({ startTimeMs := none, attendee := none,
         contentSpan := cOpenRun.contentSpan ++ [renderTranscriptItem [] c8punct] },
       [{ contentSpan := cOpenRun.contentSpan ++ [renderTranscriptItem [] c8punct]
          attendee := { attendeeId := "x", externalUserId := "user#X" }
          startTimeMs := 100, endTimeMs := 600 }]) ∧
    sbStep false []
        ({ startTimeMs := none, attendee := none, contentSpan := [] }, []) c8punct =
      ({ startTimeMs := some c8punct.startTimeMs, attendee := some c8punct.attendee,
         contentSpan := [renderTranscriptItem [] c8punct] }, []) :=
  ⟨c8_theorem.1 false [] [] cOpenRun c8punct 100
      { attendeeId := "x", externalUserId := "user#X" } rfl (by decide) rfl rfl,
   c8_theorem.2 false [] [] [] c8punct⟩

/-- C10 (confirmed): re-upserting a result already stored under its own id
with identical content leaves the Store unchanged, so re-running the
rendering pass produces an identical rendered segment list. -/
theorem c10_theorem (m : List (String × TranscriptResult)) (result : TranscriptResult)
    (hget : jsMapGet m result.resultId = some result)
    (hnd : (m.map Prod.fst).Nodup) :
    jsMapSet m result.resultId result = m ∧
    ∀ (noSep : Bool) (es : List String),
      updatePartialTranscriptDiv noSep es (jsMapSet m result.resultId result) =
        updatePartialTranscriptDiv noSep es m := by
  have hset := jsMapSet_eq_self hget hnd
  exact ⟨hset, fun noSep es => by rw [hset]⟩

/-- C10 witness: `c10_theorem` on a singleton store. -/
theorem c10_witness :
    jsMapSet [("r1", c10res)] c10res.resultId c10res = [("r1", c10res)] ∧
    updatePartialTranscriptDiv false [] (jsMapSet [("r1", c10res)] c10res.resultId c10res) =
      updatePartialTranscriptDiv false [] [("r1", c10res)] :=
  ⟨(c10_theorem [("r1", c10res)] c10res (by decide) (by decide)).1,
   (c10_theorem [("r1", c10res)] c10res (by decide) (by decide)).2 false []⟩

theorem storeInv_congr_maps (st' st : TranscriptionState)
    (h1 : st'.resultMap = st.resultMap) (h2 : st'.resultTimeMap = st.resultTimeMap)
    (hinv : StoreInv st) : StoreInv st' := by
  intro k hk
  rw [h2] at hk
  rw [h1]
  exact hinv k hk

theorem storeInv_of_empty_time (st : TranscriptionState) (h : st.resultTimeMap = []) :
    StoreInv st := by
  intro k hk
  rw [h] at hk
  simp [jsMapGet] at hk

theorem storeInv_initial : StoreInv initialState := by
  intro k hk
  simp [initialState, jsMapGet] at hk

theorem applyResultLanguageCode_maps (st : TranscriptionState) (lc : Option String) :
    (applyResultLanguageCode st lc).resultMap = st.resultMap ∧
    (applyResultLanguageCode st lc).resultTimeMap = st.resultTimeMap := by
  cases lc with
  | none => exact ⟨rfl, rfl⟩
  | some l =>
    by_cases hcon : l ∈ LANGUAGES_NO_WORD_SEPARATOR <;>
      simp [applyResultLanguageCode, hcon]

theorem storeInv_upsertAndRender {st : TranscriptionState} {r : TranscriptResult}
    {st' : TranscriptionState} (hinv : StoreInv st)
    (h : upsertAndRender st r = (st', true)) : StoreInv st' := by
  simp only [upsertAndRender] at h
  split at h
  · simp at h
  · split at h
    · -- partial result: both maps upserted
      rename_i hpart
      injection h with hA hB
      subst hA
      intro k hk
      by_cases hkr : k = r.resultId
      · subst hkr
        refine ⟨r, ?_, hpart⟩
        exact jsMapGet_set_self st.resultMap r.resultId r
      · have hk' : (jsMapGet (jsMapSet st.resultTimeMap r.resultId r.endTimeMs) k).isSome
            = true := hk
        rw [jsMapGet_set_ne _ _ _ _ hkr] at hk'
        obtain ⟨r', hr', hp⟩ := hinv k hk'
        refine ⟨r', ?_, hp⟩
        show jsMapGet (jsMapSet st.resultMap r.resultId r) k = some r'
        rw [jsMapGet_set_ne _ _ _ _ hkr]
        exact hr'
    · -- finalized result: eviction and deletion ran
      split at h
      · -- time map became empty
        rename_i hempty
        injection h with hA hB
        subst hA
        apply storeInv_of_empty_time
        exact List.isEmpty_iff.mp hempty
      · injection h with hA hB
        subst hA
        intro k hk
        by_cases hkr : k = r.resultId
        · subst hkr
          have hk' : (jsMapGet (jsMapDelete
              (evictLoop (jsMapSet st.resultTimeMap r.resultId r.endTimeMs)
                r.resultId r.endTimeMs) r.resultId) r.resultId).isSome = true := hk
          rw [jsMapGet_delete_self] at hk'
          simp at hk'
        · have hk' : (jsMapGet (jsMapDelete
              (evictLoop (jsMapSet st.resultTimeMap r.resultId r.endTimeMs)
                r.resultId r.endTimeMs) r.resultId) k).isSome = true := hk
          rw [jsMapGet_delete_ne _ _ _ hkr] at hk'
          have hk2 := evictLoop_isSome_mono hk'
          rw [jsMapGet_set_ne _ _ _ _ hkr] at hk2
          obtain ⟨r', hr', hp⟩ := hinv k hk2
          refine ⟨r', ?_, hp⟩
          show jsMapGet (jsMapSet st.resultMap r.resultId r) k = some r'
          rw [jsMapGet_set_ne _ _ _ _ hkr]
          exact hr'

theorem storeInv_processResult {st : TranscriptionState} {r : TranscriptResult}
    {st' : TranscriptionState} (hinv : StoreInv st)
    (h : processResult st r = (st', true)) : StoreInv st' := by
  simp only [processResult] at h
  have hmaps := applyResultLanguageCode_maps st r.languageCode
  have hinv1 : StoreInv (applyResultLanguageCode st r.languageCode) :=
    storeInv_congr_maps _ st hmaps.1 hmaps.2 hinv
  split at h
  · exact storeInv_upsertAndRender hinv1 h
  · split at h
    · simp at h
    · rename_i alt0 heq
      refine storeInv_upsertAndRender ?_ h
      cases hents : alt0.entities with
      | none => exact hinv1
      | some ents =>
        dsimp only
        split
        · exact storeInv_congr_maps _ _ rfl rfl hinv1
        · exact hinv1

theorem storeInv_processResults : ∀ (rs : List TranscriptResult)
    (st st' : TranscriptionState),
    StoreInv st → processResults st rs = (st', true) → StoreInv st' := by
  intro rs
  induction rs with
  | nil =>
    intro st st' hinv h
    simp only [processResults] at h
    injection h with h1 h2
    rw [← h1]
    exact hinv
  | cons r rs ih =>
    intro st st' hinv h
    unfold processResults at h
    cases hp : processResult st r with
    | mk st1 b =>
      rw [hp] at h
      cases b
      · simp at h
      · exact ih st1 st' (storeInv_processResult hinv hp) h

theorem storeInv_processStatus (st : TranscriptionState) (s : TranscriptionStatus)
    (hinv : StoreInv st) : StoreInv (processStatus st s) := by
  obtain ⟨ty, cfg⟩ := s
  cases ty with
  | started =>
    dsimp only [processStatus]
    rcases hlc : derivedStatusLanguageCode cfg with _ | l
    · exact hinv
    · dsimp only
      split
      · exact storeInv_congr_maps _ st rfl rfl hinv
      · exact hinv
  | interrupted => exact hinv
  | resumed => exact hinv
  | stopped =>
    dsimp only [processStatus]
    split
    · exact storeInv_of_empty_time _ rfl
    · exact hinv
  | failed =>
    dsimp only [processStatus]
    split
    · exact storeInv_of_empty_time _ rfl
    · exact hinv

theorem storeInv_handler {st : TranscriptionState} {ev : TranscriptEvent}
    {st' : TranscriptionState} (hinv : StoreInv st)
    (h : transcriptEventHandler st ev = (st', true)) : StoreInv st' := by
  simp only [transcriptEventHandler] at h
  have hinv1 : StoreInv (if st.enableLiveTranscription = false
      then { st with enableLiveTranscription := true } else st) := by
    split
    · exact storeInv_congr_maps _ st rfl rfl hinv
    · exact hinv
  cases ev with
  | status s =>
    injection h with h1 h2
    rw [← h1]
    exact storeInv_processStatus _ _ hinv1
  | transcript rs =>
    exact storeInv_processResults rs _ st' hinv1 h

theorem storeInv_processEvents : ∀ (evs : List TranscriptEvent)
    (st st' : TranscriptionState),
    StoreInv st → processEvents st evs = (st', true) → StoreInv st' := by
  intro evs
  induction evs with
  | nil =>
    intro st st' hinv h
    simp only [processEvents] at h
    injection h with h1 h2
    rw [← h1]
    exact hinv
  | cons ev evs ih =>
    intro st st' hinv h
    simp only [processEvents] at h
    injection h with h1 h2
    rw [Bool.and_eq_true] at h2
    have hh : transcriptEventHandler st ev = ((transcriptEventHandler st ev).1, true) := by
      rw [← h2.1]
    have hinv1 := storeInv_handler hinv hh
    have hq : processEvents (transcriptEventHandler st ev).1 evs = (st', true) := by
      rw [← h1, ← h2.2]
    exact ih _ st' hinv1 hq

/-- C1 (corrected, amended): after any event sequence processed from the
initial state in which no handler call threw, every key still present in the
end-time map is stored in the result map as a partial result — the
time-tracking side of the Store never retains a finalized result in the
same reconciliation call.  The result map (`values()`) itself can retain
finalized results while other partials remain; see the counterexample. -/
theorem c1_theorem (evs : List TranscriptEvent)
    (hdone : (processEvents initialState evs).2 = true) :
    StoreInv (processEvents initialState evs).1 := by
  apply storeInv_processEvents evs initialState _ storeInv_initial
  rw [← hdone]

/-- C1 counterexample: one completed call processing a partial result and
then a finalized one leaves the finalized result inside
`partialTranscriptResultMap` (its `values()` sequence) because only the
end-time entry is deleted while another partial remains tracked.  This
refutes "the Store's values() sequence contains no entry with
isPartial=false". -/
theorem c1_counterexample :
    (processEvents initialState [TranscriptEvent.transcript [c1resP, c1resF]]).2 = true ∧
    jsMapGet (processEvents initialState
      [TranscriptEvent.transcript [c1resP, c1resF]]).1.resultMap "f" = some c1resF ∧
    c1resF.isPartial = false := by
  refine ⟨by decide, by decide, by decide⟩

/-- C1 witness: `c1_theorem` on a singleton batch holding one partial
result. -/
theorem c1_witness :
    StoreInv (processEvents initialState [TranscriptEvent.transcript [c1resW]]).1 :=
  c1_theorem [TranscriptEvent.transcript [c1resW]] (by decide)

theorem appendNew_inv_last (acc : RenderAcc) (seg : TranscriptSegment)
    (hnd : (acc.spanMap.map Prod.fst).Nodup)
    (hbound : ∀ p ∈ acc.spanMap, p.2 < acc.blocks.length)
    (habs : ∀ p ∈ acc.spanMap, p.1 ≠ seg.attendee.attendeeId) :
    RenderInv (appendNewSpeakerTranscriptDiv acc seg) ∧
    ∃ idx, (appendNewSpeakerTranscriptDiv acc seg).spanMap.getLast? =
        some (seg.attendee.attendeeId, idx) ∧
      idx < (appendNewSpeakerTranscriptDiv acc seg).blocks.length := by
  have hset : jsMapSet acc.spanMap seg.attendee.attendeeId acc.blocks.length =
      acc.spanMap ++ [(seg.attendee.attendeeId, acc.blocks.length)] :=
    jsMapSet_of_absent _ habs
  dsimp only [appendNewSpeakerTranscriptDiv]
  refine ⟨⟨?_, ?_⟩, acc.blocks.length, ?_, ?_⟩
  · rw [hset, List.map_append, List.nodup_append]
    refine ⟨hnd, List.nodup_singleton _, ?_⟩
    intro a ha hb
    obtain ⟨p, hp, hpa⟩ := List.mem_map.mp ha
    have hb' : a = seg.attendee.attendeeId := by simpa using hb
    exact habs p hp (hpa.trans hb')
  · intro p hp
    rw [hset] at hp
    rcases List.mem_append.mp hp with h1 | h1
    · have := hbound p h1
      simp only [List.length_append, List.length_cons, List.length_nil]
      omega
    · have hp2 : p = (seg.attendee.attendeeId, acc.blocks.length) := by simpa using h1
      rw [hp2]
      simp
  · rw [hset]
    exact List.getLast?_concat _
  · simp

theorem renderSegment_inv_last (acc : RenderAcc) (seg : TranscriptSegment)
    (hinv : RenderInv acc) :
    RenderInv (renderSegment acc seg) ∧
    ∃ idx, (renderSegment acc seg).spanMap.getLast? =
        some (seg.attendee.attendeeId, idx) ∧
      idx < (renderSegment acc seg).blocks.length := by
  obtain ⟨hnd, hbound⟩ := hinv
  simp only [renderSegment]
  cases hget : jsMapGet acc.spanMap seg.attendee.attendeeId with
  | none =>
    exact appendNew_inv_last acc seg hnd hbound ((jsMapGet_eq_none_iff _ _).mp hget)
  | some idx =>
    dsimp only
    by_cases hpos : listIdxOf seg.attendee.attendeeId (acc.spanMap.map Prod.fst) <
        (acc.spanMap.map Prod.fst).length - 1
    · rw [if_pos hpos]
      apply appendNew_inv_last
      · exact ((jsMapDelete_sublist acc.spanMap seg.attendee.attendeeId).map
          Prod.fst).nodup hnd
      · intro p hp
        exact hbound p ((jsMapDelete_sublist acc.spanMap seg.attendee.attendeeId).subset hp)
      · exact (jsMapGet_eq_none_iff _ _).mp
          (jsMapGet_delete_self acc.spanMap seg.attendee.attendeeId)
    · rw [if_neg hpos]
      have hmem : seg.attendee.attendeeId ∈ acc.spanMap.map Prod.fst :=
        jsMapGet_mem_keys hget
      have hlastk : (acc.spanMap.map Prod.fst).getLast? = some seg.attendee.attendeeId :=
        getLast_of_not_lt_idxOf hnd hmem hpos
      rw [List.getLast?_map] at hlastk
      obtain ⟨p, hp, hp1⟩ := Option.map_eq_some'.mp hlastk
      have hpair : acc.spanMap.getLast? = some (seg.attendee.attendeeId, p.2) := by
        rw [hp]
        exact congrArg some (Prod.ext hp1 rfl)
      have hgetv := jsMapGet_getLast hnd hpair
      have hv : p.2 = idx := by
        rw [hget] at hgetv
        exact (Option.some.inj hgetv).symm
      have hpmem : p ∈ acc.spanMap := List.mem_of_mem_getLast? hp
      have hplt := hbound p hpmem
      refine ⟨⟨hnd, ?_⟩, idx, ?_, ?_⟩
      · intro q hq
        have := hbound q hq
        rw [modifyAt_length]
        exact this
      · rw [← hv]
        exact hpair
      · rw [modifyAt_length]
        rw [← hv]
        exact hplt

theorem renderSegment_merge (acc : RenderAcc) (seg : TranscriptSegment) (idx : Nat)
    (hinv : RenderInv acc)
    (hlast : acc.spanMap.getLast? = some (seg.attendee.attendeeId, idx)) :
    jsMapGet acc.spanMap seg.attendee.attendeeId = some idx ∧
    renderSegment acc seg =
      { acc with
        blocks := modifyAt
          (fun b => { b with tokens := b.tokens ++ spaceToken :: seg.contentSpan })
          idx acc.blocks } := by
  have hget := jsMapGet_getLast hinv.1 hlast
  refine ⟨hget, ?_⟩
  simp only [renderSegment]
  rw [hget]
  dsimp only
  have hkeys_last : (acc.spanMap.map Prod.fst).getLast? = some seg.attendee.attendeeId := by
    rw [List.getLast?_map, hlast]
    rfl
  have hidx : listIdxOf seg.attendee.attendeeId (acc.spanMap.map Prod.fst) =
      (acc.spanMap.map Prod.fst).length - 1 :=
    listIdxOf_getLast hinv.1 hkeys_last
  have hnot : ¬ listIdxOf seg.attendee.attendeeId (acc.spanMap.map Prod.fst) <
      (acc.spanMap.map Prod.fst).length - 1 := by
    rw [hidx]
    exact Nat.lt_irrefl _
  rw [if_neg hnot]

/-- C9 (confirmed): in the renderer walk, a segment whose attendee owns the
most recently opened span is appended to that span behind a single
non-breaking-space token with no new block — in particular two consecutive
segments of the same attendee always merge; and a segment whose attendee has
an open span that is not the most recently opened one forgets that span and
opens a brand-new speaker block at the end instead of resuming the old
one. -/
theorem c9_theorem :
    (∀ (acc : RenderAcc) (seg seg' : TranscriptSegment), RenderInv acc →
      seg'.attendee.attendeeId = seg.attendee.attendeeId →
      ∃ idx,
        jsMapGet (renderSegment acc seg).spanMap seg'.attendee.attendeeId = some idx ∧
        renderSegment (renderSegment acc seg) seg' =
          { renderSegment acc seg with
            blocks := modifyAt
              (fun b => { b with tokens := b.tokens ++ spaceToken :: seg'.contentSpan })
              idx (renderSegment acc seg).blocks } ∧
        (renderSegment (renderSegment acc seg) seg').blocks.length =
          (renderSegment acc seg).blocks.length) ∧
    (∀ (acc : RenderAcc) (seg : TranscriptSegment) (idx : Nat),
      jsMapGet acc.spanMap seg.attendee.attendeeId = some idx →
      listIdxOf seg.attendee.attendeeId (acc.spanMap.map Prod.fst) <
        (acc.spanMap.map Prod.fst).length - 1 →
      renderSegment acc seg =
        appendNewSpeakerTranscriptDiv
          { acc with spanMap := jsMapDelete acc.spanMap seg.attendee.attendeeId } seg ∧
      (renderSegment acc seg).blocks =
        acc.blocks ++ [{ speakerLabel := speakerLabelOf seg.attendee
                         tokens := seg.contentSpan }]) := by
  constructor
  · intro acc seg seg' hinv hsame
    obtain ⟨hinv1, idx, hlast, hlt⟩ := renderSegment_inv_last acc seg hinv
    have hlast' : (renderSegment acc seg).spanMap.getLast? =
        some (seg'.attendee.attendeeId, idx) := by
      rw [hsame]
      exact hlast
    obtain ⟨hget, heq⟩ := renderSegment_merge (renderSegment acc seg) seg' idx hinv1 hlast'
    refine ⟨idx, hget, heq, ?_⟩
    rw [heq]
    exact modifyAt_length _ _ _
  · intro acc seg idx hget hpos
    have heq : renderSegment acc seg =
        appendNewSpeakerTranscriptDiv
          { acc with spanMap := jsMapDelete acc.spanMap seg.attendee.attendeeId } seg := by
      simp only [renderSegment]
      rw [hget]
      dsimp only
      rw [if_pos hpos]
    refine ⟨heq, ?_⟩
    rw [heq]
    rfl

/-- C9 witness: `c9_theorem` applied to the empty renderer state with two
same-speaker segments, and to a concrete state where speaker `a` has an open
span but speaker `b` opened one after it. -/
theorem c9_witness :
    (∃ idx,
      jsMapGet (renderSegment RenderAcc.init c9segA).spanMap c9segA2.attendee.attendeeId
        = some idx ∧
      renderSegment (renderSegment RenderAcc.init c9segA) c9segA2 =
        { renderSegment RenderAcc.init c9segA with
          blocks := modifyAt
            (fun b => { b with tokens := b.tokens ++ spaceToken :: c9segA2.contentSpan })
            idx (renderSegment RenderAcc.init c9segA).blocks } ∧
      (renderSegment (renderSegment RenderAcc.init c9segA) c9segA2).blocks.length =
        (renderSegment RenderAcc.init c9segA).blocks.length) ∧
    (renderSegment c9accInterjected c9segA =
        appendNewSpeakerTranscriptDiv
          { c9accInterjected with
            spanMap := jsMapDelete c9accInterjected.spanMap c9segA.attendee.attendeeId }
          c9segA ∧
      (renderSegment c9accInterjected c9segA).blocks =
        c9accInterjected.blocks ++
          [{ speakerLabel := speakerLabelOf c9segA.attendee
             tokens := c9segA.contentSpan }]) :=
  ⟨c9_theorem.1 RenderAcc.init c9segA c9segA2
      ⟨by simp [RenderAcc.init], by simp [RenderAcc.init]⟩ rfl,
   c9_theorem.2 c9accInterjected c9segA 0 (by decide) (by decide)⟩

end Chime
